import Mathlib

/-!
Shallow embedding of the attention layer of `transformers_neuronx`
(`src/transformers_neuronx/layers/attention.py`), together with proofs about
it.

Tensors are total functions from `Fin`-indexed coordinates to exact rationals;
floating-point arithmetic is modelled exactly, so the `Convert`/upcast steps of
the source are identities here.  The accelerator's elementwise `Exp` primitive
is modelled by an abstract function `E : ℚ → ℚ`; each theorem assumes only the
properties of `Exp` that it needs (typically positivity).  External HLO
primitives that live outside the embedded file (`Reduce`, `Select`, `Scatter`,
`hlo.softmax`, `hlo.dot00_add1`, ...) are modelled where noted, following the
repository spec's description of the tensor-graph API.

Unless stated otherwise the embedding follows the `neuron_config = None`
execution path of the source: SBH cache layout, shard-over-head sharding and
`n_kv_heads = 0` (no grouped-query repeat), which is the path the properties
below are about.
-/

namespace TNX

/-- Score-shaped tensor `[n_seqs, n_heads_tp, n_active_tokens, n_positions]`. -/
abbrev T4 (s h t p : ℕ) := Fin s → Fin h → Fin t → Fin p → ℚ

/-- Row-reduced tensor `[n_seqs, n_heads_tp, n_active_tokens]`. -/
abbrev T3 (s h t : ℕ) := Fin s → Fin h → Fin t → ℚ

/-- Value-shaped tensor `[n_positions, n_seqs, n_heads, d_head]` (SBH layout). -/
abbrev VT (p s h d : ℕ) := Fin p → Fin s → Fin h → Fin d → ℚ

/-- The universe of a nonzero-size index type is a nonempty finset. -/
def finsetUnivNonempty (p : ℕ) [NeZero p] : (Finset.univ : Finset (Fin p)).Nonempty :=
  ⟨⟨0, Nat.pos_of_ne_zero (NeZero.ne p)⟩, Finset.mem_univ _⟩

instance {p a : ℕ} [NeZero p] : NeZero (p + a) :=
  ⟨by have := NeZero.ne p; omega⟩

/-- Row-max reduction over the last (position) dimension.  Models the HLO
`Reduce(x, -inf, dimensions=[3], to_apply=max)` op used by the source: over a
nonempty reduced dimension a fold seeded with `-inf` computes exactly the
maximum of the row, which is what is embedded here. -/
def reduceMax3 {s h t p : ℕ} [NeZero p] (x : T4 s h t p) : T3 s h t :=
  fun i j k => Finset.univ.sup' (finsetUnivNonempty p) (fun l => x i j k l)

/-- Row-sum reduction over the last (position) dimension.  Models the HLO
`Reduce(x, 0, dimensions=[3], to_apply=add)` op used by the source. -/
def reduceSum3 {s h t p : ℕ} (x : T4 s h t p) : T3 s h t :=
  fun i j k => ∑ l, x i j k l

/-- Mask argument of `mask` (attention.py lines 340-359): either a 2-D
positional mask `[n_seqs, n_positions]` or a higher-rank per-sequence mask
`[n_seqs, n_active_tokens, n_positions]`, the two ranks the source's
`len(mask.sizes)` branch distinguishes. -/
inductive AttnMask (s t p : ℕ)
  | rank2 (m : Fin s → Fin p → Bool)
  | rank3 (m : Fin s → Fin t → Fin p → Bool)

/-- Broadcast of the mask tensor to the score shape `[s, h, t, p]`: a 2-D mask
is broadcast along `broadcast_dimensions=[0, 3]` and a 3-D mask along
`broadcast_dimensions=[0, 2, 3]` (attention.py lines 354-357); in both cases
the result is independent of the head coordinate. -/
def broadcastMask {s t p : ℕ} (m : AttnMask s t p) (i : Fin s) (k : Fin t) (l : Fin p) : Bool :=
  match m with
  | .rank2 m2 => m2 i l
  | .rank3 m3 => m3 i k l

/-- Translation of `mask` (attention.py lines 340-359): broadcast the mask to
the score shape and `Select(mask_br, score, const_br)`.  The source's
`tp_degree` and `shard_over_batch` parameters are unused by its body and are
dropped; `constant_val` (default `-30000` at the Python level) is passed
explicitly at every call site of this embedding. -/
def mask {s h t p : ℕ} (score : T4 s h t p) (m : AttnMask s t p) (constant_val : ℚ) :
    T4 s h t p :=
  fun i j k l =>
    match m with
    | .rank2 m2 => if m2 i l then score i j k l else constant_val
    | .rank3 m3 => if m3 i k l then score i j k l else constant_val

/-- Shared normalization constant of the split `context` (attention.py lines
402-408): the elementwise `Maximum` of the row-max of the past scores and the
row-max of the active scores.  The upcast to `f32` performed by the source just
before this step (lines 398-400) is the identity in this exact-arithmetic
embedding. -/
def context_reduce_max {s h t p a : ℕ} [NeZero p] [NeZero a]
    (past_scores : T4 s h t p) (active_score : T4 s h t a) : T3 s h t :=
  fun i j k => max (reduceMax3 past_scores i j k) (reduceMax3 active_score i j k)

/-- Exponentiated, shifted past scores with optional sparse mask (attention.py
lines 413-416): `exp = Exp(past_scores - reduce_max_br)` and, when a sparse
mask is given, `exp = mask(exp, sparse_mask, 0)`.  In that Python call `0` is
the third positional argument and therefore binds the unused `tp_degree`
parameter of `mask`, so `constant_val` keeps its default `-30000`; the
embedding reproduces this by passing `-30000`. -/
def context_past_prob {s h t p a : ℕ} [NeZero p] [NeZero a] (E : ℚ → ℚ)
    (past_scores : T4 s h t p) (active_score : T4 s h t a)
    (sparse_mask : Option (AttnMask s t p)) : T4 s h t p :=
  let e : T4 s h t p := fun i j k l =>
    E (past_scores i j k l - context_reduce_max past_scores active_score i j k)
  match sparse_mask with
  | none => e
  | some m => mask e m (-30000)

/-- Exponentiated, shifted active scores with optional sparse mask
(attention.py lines 421-425): `active_prob = Exp(active_score -
reduce_max_bra)` and, when an active sparse mask is given, `active_prob =
mask(active_prob, active_sparse_mask, 0)` — again with `0` binding `tp_degree`,
so the fill value is the default `-30000`. -/
def context_active_prob {s h t p a : ℕ} [NeZero p] [NeZero a] (E : ℚ → ℚ)
    (past_scores : T4 s h t p) (active_score : T4 s h t a)
    (active_sparse_mask : Option (AttnMask s t a)) : T4 s h t a :=
  let e : T4 s h t a := fun i j k l =>
    E (active_score i j k l - context_reduce_max past_scores active_score i j k)
  match active_sparse_mask with
  | none => e
  | some m => mask e m (-30000)

/-- Combined softmax denominator of the split `context` (attention.py lines
417-427): the row sum of the (possibly sparse-masked) exponentiated past
scores plus the row sum of the (possibly sparse-masked) exponentiated active
scores. -/
def context_denom {s h t p a : ℕ} [NeZero p] [NeZero a] (E : ℚ → ℚ)
    (past_scores : T4 s h t p) (active_score : T4 s h t a)
    (sparse_mask : Option (AttnMask s t p))
    (active_sparse_mask : Option (AttnMask s t a)) : T3 s h t :=
  fun i j k =>
    reduceSum3 (context_past_prob E past_scores active_score sparse_mask) i j k
      + reduceSum3 (context_active_prob E past_scores active_score active_sparse_mask) i j k

/-- Translation of the split `context` (attention.py lines 362-464) on the
`neuron_config = None`, `n_kv_heads = 0` path: shared max, per-segment
exponentiation (with the optional sparse masks), combined denominator, the two
probability-weighted value contractions
(`lhs_batch_dimensions=[0,1]`, `lhs_contracting_dimensions=[3]`,
`rhs_batch_dimensions=[1,2]`, `rhs_contracting_dimensions=[0]`), their sum,
division by the broadcast denominator, and the final
`Transpose(dimensions=[0,2,1,3])` to token-major layout, reflected here in the
output index order `(seq, token, head, d_head)`.  The `Convert`s to the output
dtype are identities in exact arithmetic. -/
def context {s h t p a d : ℕ} [NeZero p] [NeZero a] (E : ℚ → ℚ)
    (past_scores : T4 s h t p) (active_score : T4 s h t a)
    (past_values : VT p s h d) (active_values : VT a s h d)
    (sparse_mask : Option (AttnMask s t p))
    (active_sparse_mask : Option (AttnMask s t a)) :
    Fin s → Fin t → Fin h → Fin d → ℚ :=
  fun i k j dd =>
    ((∑ l, context_past_prob E past_scores active_score sparse_mask i j k l * past_values l i j dd)
      + ∑ l, context_active_prob E past_scores active_score active_sparse_mask i j k l * active_values l i j dd)
      / context_denom E past_scores active_score sparse_mask active_sparse_mask i j k

/-- Modelled from the spec: `hlo.softmax` is not part of the embedded sources;
the spec's external-interface section describes it as the "softmax
(log-sum-exp normalized exponential)", i.e. the numerically stable
`Exp(x - rowmax) / rowsum(Exp(x - rowmax))` over the last dimension, which is
what is embedded here (with the abstract exponential `E`). -/
def softmax {s h t p : ℕ} [NeZero p] (E : ℚ → ℚ) (score : T4 s h t p) : T4 s h t p :=
  fun i j k l =>
    E (score i j k l - reduceMax3 score i j k)
      / ∑ l2, E (score i j k l2 - reduceMax3 score i j k)

/-- Translation of `context_combined` (attention.py lines 467-547) on the
`neuron_config = None`, `n_kv_heads = 0` path: `probs = hlo.softmax(score)`,
optionally `probs = mask(probs, sparse_mask, constant_val=0)` (here the source
does pass the keyword `constant_val=0`), the probability-weighted value
contraction with the same dot dimensions as the split variant, and the final
`Transpose(dimensions=[0,2,1,3])`, reflected in the output index order
`(seq, token, head, d_head)`.  The cast of `probs` to the output dtype is the
identity in exact arithmetic. -/
def context_combined {s h t p d : ℕ} [NeZero p] (E : ℚ → ℚ)
    (score : T4 s h t p) (values : VT p s h d)
    (sparse_mask : Option (AttnMask s t p)) :
    Fin s → Fin t → Fin h → Fin d → ℚ :=
  let probs : T4 s h t p :=
    match sparse_mask with
    | none => softmax E score
    | some m => mask (softmax E score) m 0
  fun i k j dd => ∑ l, probs i j k l * values l i j dd

/-- Concatenation of a past and an active score tensor along the last
(position) dimension, the partition the split `context` consumes. -/
def concatScores {s h t p a : ℕ} (x : T4 s h t p) (y : T4 s h t a) : T4 s h t (p + a) :=
  fun i j k l =>
    if hl : (l : ℕ) < p then x i j k ⟨l, hl⟩
    else y i j k ⟨(l : ℕ) - p, by have := l.isLt; omega⟩

/-- Concatenation of past and active value tensors along the first (position)
dimension (SBH layout). -/
def concatValues {p a s h d : ℕ} (x : VT p s h d) (y : VT a s h d) : VT (p + a) s h d :=
  fun l i j dd =>
    if hl : (l : ℕ) < p then x ⟨l, hl⟩ i j dd
    else y ⟨(l : ℕ) - p, by have := l.isLt; omega⟩ i j dd

theorem concatScores_castAdd {s h t p a : ℕ} (x : T4 s h t p) (y : T4 s h t a)
    (i : Fin s) (j : Fin h) (k : Fin t) (l : Fin p) :
    concatScores x y i j k (Fin.castAdd a l) = x i j k l := by
  simp [concatScores, l.isLt]

theorem concatScores_natAdd {s h t p a : ℕ} (x : T4 s h t p) (y : T4 s h t a)
    (i : Fin s) (j : Fin h) (k : Fin t) (l : Fin a) :
    concatScores x y i j k (Fin.natAdd p l) = y i j k l := by
  simp [concatScores]

theorem concatValues_castAdd {p a s h d : ℕ} (x : VT p s h d) (y : VT a s h d)
    (l : Fin p) (i : Fin s) (j : Fin h) (dd : Fin d) :
    concatValues x y (Fin.castAdd a l) i j dd = x l i j dd := by
  simp [concatValues, l.isLt]

theorem concatValues_natAdd {p a s h d : ℕ} (x : VT p s h d) (y : VT a s h d)
    (l : Fin a) (i : Fin s) (j : Fin h) (dd : Fin d) :
    concatValues x y (Fin.natAdd p l) i j dd = y l i j dd := by
  simp [concatValues]

theorem reduceMax3_concat {s h t p a : ℕ} [NeZero p] [NeZero a]
    (x : T4 s h t p) (y : T4 s h t a) (i : Fin s) (j : Fin h) (k : Fin t) :
    reduceMax3 (concatScores x y) i j k = max (reduceMax3 x i j k) (reduceMax3 y i j k) := by
  unfold reduceMax3
  apply le_antisymm
  · apply Finset.sup'_le
    intro l _
    unfold concatScores
    split
    · exact le_max_of_le_left (Finset.le_sup' _ (Finset.mem_univ _))
    · exact le_max_of_le_right (Finset.le_sup' _ (Finset.mem_univ _))
  · apply max_le
    · apply Finset.sup'_le
      intro l _
      calc x i j k l = concatScores x y i j k (Fin.castAdd a l) :=
            (concatScores_castAdd x y i j k l).symm
        _ ≤ _ := Finset.le_sup' _ (Finset.mem_univ _)
    · apply Finset.sup'_le
      intro l _
      calc y i j k l = concatScores x y i j k (Fin.natAdd p l) :=
            (concatScores_natAdd x y i j k l).symm
        _ ≤ _ := Finset.le_sup' _ (Finset.mem_univ _)

/-- C1: for every score tensor and value tensor, with no sparse masks supplied,
the split `context` applied to the past/active partition of the scores and
values produces exactly the same output as `context_combined` applied to the
whole (concatenated) score and value tensors, for any positive exponential:
both compute `softmax(S) @ V`. -/
theorem context_eq_context_combined {s h t p a d : ℕ} [NeZero p] [NeZero a]
    (E : ℚ → ℚ)
    (past_scores : T4 s h t p) (active_score : T4 s h t a)
    (past_values : VT p s h d) (active_values : VT a s h d) :
    context E past_scores active_score past_values active_values none none =
      context_combined E (concatScores past_scores active_score)
        (concatValues past_values active_values) none := by
  funext i k j dd
  have hmax : reduceMax3 (concatScores past_scores active_score) i j k
      = context_reduce_max past_scores active_score i j k :=
    reduceMax3_concat past_scores active_score i j k
  set M : ℚ := context_reduce_max past_scores active_score i j k with hM
  have hDsplit : (∑ l, E (concatScores past_scores active_score i j k l - M))
      = (∑ l, E (past_scores i j k l - M)) + ∑ l, E (active_score i j k l - M) := by
    rw [Fin.sum_univ_add]
    congr 1
    · exact Finset.sum_congr rfl fun l _ => by rw [concatScores_castAdd]
    · exact Finset.sum_congr rfl fun l _ => by rw [concatScores_natAdd]
  have hNsplit : (∑ l, E (concatScores past_scores active_score i j k l - M)
        * concatValues past_values active_values l i j dd)
      = (∑ l, E (past_scores i j k l - M) * past_values l i j dd)
        + ∑ l, E (active_score i j k l - M) * active_values l i j dd := by
    rw [Fin.sum_univ_add]
    congr 1
    · exact Finset.sum_congr rfl fun l _ => by
        rw [concatScores_castAdd, concatValues_castAdd]
    · exact Finset.sum_congr rfl fun l _ => by
        rw [concatScores_natAdd, concatValues_natAdd]
  simp only [context, context_combined, softmax, context_past_prob, context_active_prob,
    context_denom, reduceSum3, hmax, ← hM]
  rw [show (∑ l, E (concatScores past_scores active_score i j k l - M)
        / (∑ l2, E (concatScores past_scores active_score i j k l2 - M))
        * concatValues past_values active_values l i j dd)
      = (∑ l, E (concatScores past_scores active_score i j k l - M)
        * concatValues past_values active_values l i j dd)
        / ∑ l2, E (concatScores past_scores active_score i j k l2 - M) from by
    rw [Finset.sum_div]
    exact Finset.sum_congr rfl fun l _ => div_mul_eq_mul_div _ _ _]
  rw [hNsplit, hDsplit]

/-- C5: in the split `context`, the normalization constant subtracted from both
score segments is the elementwise maximum of the past row-max and the active
row-max (equivalently, the row-max of the concatenated scores), and the softmax
denominator is the sum of the past and active exponentiated-score row sums. -/
theorem context_norm_constant_and_denom {s h t p a : ℕ} [NeZero p] [NeZero a]
    (E : ℚ → ℚ) (past_scores : T4 s h t p) (active_score : T4 s h t a)
    (i : Fin s) (j : Fin h) (k : Fin t) :
    context_reduce_max past_scores active_score i j k
        = max (Finset.univ.sup' (finsetUnivNonempty p) (fun l => past_scores i j k l))
            (Finset.univ.sup' (finsetUnivNonempty a) (fun l => active_score i j k l))
      ∧ context_reduce_max past_scores active_score i j k
        = reduceMax3 (concatScores past_scores active_score) i j k
      ∧ (∀ l, context_past_prob E past_scores active_score none i j k l
          = E (past_scores i j k l - context_reduce_max past_scores active_score i j k))
      ∧ (∀ l, context_active_prob E past_scores active_score none i j k l
          = E (active_score i j k l - context_reduce_max past_scores active_score i j k))
      ∧ context_denom E past_scores active_score none none i j k
        = (∑ l, E (past_scores i j k l - context_reduce_max past_scores active_score i j k))
          + ∑ l, E (active_score i j k l - context_reduce_max past_scores active_score i j k) :=
  ⟨rfl, (reduceMax3_concat past_scores active_score i j k).symm,
    fun _ => rfl, fun _ => rfl, rfl⟩

/-- C2 (failing input): in the split `context`, a sparse-masked-out entry of
the exponentiated past scores is filled with `-30000`, not `0`.  The source
calls `mask(exp, sparse_mask, 0)`, whose third positional argument binds the
unused `tp_degree` parameter of `mask`, so `constant_val` keeps its default
`-30000`.  With an exponential satisfying `E 0 = 1`, the masked-out
exponentiated entry evaluates to `-30000` (the spec requires `0`), and the
denominator it feeds becomes `-30000 + 1` instead of `1`. -/
theorem context_sparse_mask_fills_neg30000 :
    context_past_prob (fun x => x + 1)
        (fun _ _ _ _ => 0 : T4 1 1 1 1) (fun _ _ _ _ => 0 : T4 1 1 1 1)
        (some (AttnMask.rank2 fun _ _ => false)) 0 0 0 0 = -30000
      ∧ context_denom (fun x => x + 1)
        (fun _ _ _ _ => 0 : T4 1 1 1 1) (fun _ _ _ _ => 0 : T4 1 1 1 1)
        (some (AttnMask.rank2 fun _ _ => false)) none 0 0 0 = -30000 + 1 := by
  refine ⟨by decide, ?_⟩
  simp [context_denom, reduceSum3, context_past_prob, context_active_prob,
    context_reduce_max, reduceMax3, mask, Finset.sup'_const]

/-- Witness for `context_eq_context_combined` on concrete one-element
tensors. -/
theorem context_eq_context_combined_witness :
    context (fun x => x + 1) (fun _ _ _ _ => 2 : T4 1 1 1 1) (fun _ _ _ _ => 3 : T4 1 1 1 1)
        (fun _ _ _ _ => 5 : VT 1 1 1 1) (fun _ _ _ _ => 7 : VT 1 1 1 1) none none
      = context_combined (fun x => x + 1)
          (concatScores (fun _ _ _ _ => 2 : T4 1 1 1 1) (fun _ _ _ _ => 3 : T4 1 1 1 1))
          (concatValues (fun _ _ _ _ => 5 : VT 1 1 1 1) (fun _ _ _ _ => 7 : VT 1 1 1 1))
          none :=
  context_eq_context_combined (fun x => x + 1) _ _ _ _

/-- Witness for `context_norm_constant_and_denom` on concrete one-element
tensors. -/
theorem context_norm_constant_and_denom_witness :
    context_reduce_max (fun _ _ _ _ => 2 : T4 1 1 1 1) (fun _ _ _ _ => 3 : T4 1 1 1 1) 0 0 0
      = reduceMax3 (concatScores (fun _ _ _ _ => 2 : T4 1 1 1 1)
          (fun _ _ _ _ => 3 : T4 1 1 1 1)) 0 0 0 :=
  (context_norm_constant_and_denom (fun x => x) (fun _ _ _ _ => 2 : T4 1 1 1 1)
    (fun _ _ _ _ => 3 : T4 1 1 1 1) 0 0 0).2.1

/-- C8: for every score tensor, mask (2-D positional or higher-rank
per-sequence, broadcast to the score shape) and fill constant, the `mask`
operation returns the fill constant exactly at every entry where the broadcast
mask is false, and the unchanged score at every entry where it is true.  At the
Python level `constant_val` defaults to `-30000`. -/
theorem mask_select_spec {s h t p : ℕ} (score : T4 s h t p) (m : AttnMask s t p)
    (c : ℚ) (i : Fin s) (j : Fin h) (k : Fin t) (l : Fin p) :
    (broadcastMask m i k l = false → mask score m c i j k l = c)
      ∧ (broadcastMask m i k l = true → mask score m c i j k l = score i j k l) := by
  cases m <;> refine ⟨fun hm => ?_, fun hm => ?_⟩ <;>
    simp_all [mask, broadcastMask]

/-- Witness for `mask_select_spec` at a concrete masked-out entry with the
default fill constant. -/
theorem mask_select_spec_witness :
    mask (fun _ _ _ _ => 5 : T4 1 1 1 1) (AttnMask.rank2 fun _ _ => false) (-30000) 0 0 0 0
        = -30000
      ∧ mask (fun _ _ _ _ => 5 : T4 1 1 1 1) (AttnMask.rank2 fun _ _ => true) (-30000) 0 0 0 0
        = 5 :=
  ⟨(mask_select_spec (fun _ _ _ _ => 5) (AttnMask.rank2 fun _ _ => false) (-30000) 0 0 0 0).1 rfl,
    (mask_select_spec (fun _ _ _ _ => 5) (AttnMask.rank2 fun _ _ => true) (-30000) 0 0 0 0).2 rfl⟩

/-- Element types carried by tensor handles; the floating kinds the attention
layer manipulates. -/
inductive DType
  | f32
  | f16
  | bf16
  deriving DecidableEq

/-- Output element type of the split `context` (attention.py lines 386-387):
`if dtype == None: dtype = active_score.dtype`; the final division and
transpose (lines 460-463) are emitted in this dtype. -/
def context_out_dtype (dtype : Option DType) (active_score_dtype : DType) : DType :=
  dtype.getD active_score_dtype

/-- Output element type of `context_combined` (attention.py lines 501-503):
`if dtype is None: dtype = values.dtype`; the final transpose (line 545) is
emitted in this dtype. -/
def context_combined_out_dtype (dtype : Option DType) (values_dtype : DType) : DType :=
  dtype.getD values_dtype

/-- C10: with the optional `dtype` argument omitted, the split `context`
produces its output in the active score tensor's element type while
`context_combined` produces its output in the values tensor's element type, so
mixed-precision inputs give the two variants different output element types. -/
theorem context_out_dtype_mixed (sd vd : DType) :
    context_out_dtype none sd = sd
      ∧ context_combined_out_dtype none vd = vd
      ∧ (sd ≠ vd → context_out_dtype none sd ≠ context_combined_out_dtype none vd) :=
  ⟨rfl, rfl, fun hne => hne⟩

/-- Witness for `context_out_dtype_mixed` with an `f16` score and `f32`
values. -/
theorem context_out_dtype_mixed_witness :
    context_out_dtype none DType.f16 ≠ context_combined_out_dtype none DType.f32 :=
  (context_out_dtype_mixed DType.f16 DType.f32).2.2 (by decide)

/-- Named 2-D cache-update strategies of `fused_kv_update_cache`
(attention.py lines 196-261): single-token decode, full-context prefill and
partial speculative write. -/
inductive KVUpdateStrategy
  | decodeSingle
  | prefillFull
  | speculative
  deriving DecidableEq

/-- Outcome of the 2-D shape dispatch of `fused_kv_update_cache`: either a
strategy is selected, or the `NotImplementedError` of lines 264-266 is raised;
its message names all four dimension sizes, which the error constructor
therefore carries. -/
inductive KVUpdateOutcome
  | strategy (s : KVUpdateStrategy)
  | notImplemented (n_active_tokens n_positions n_seqs n_active_seqs : ℕ)
  deriving DecidableEq

/-- Translation of the shape-driven strategy dispatch for 2-D `cache_ids` in
`fused_kv_update_cache` (attention.py lines 196, 221, 245 and 263-266): the
three `if`/`elif` guards in source order, with the final `else` raising
`NotImplementedError` naming `n_active_tokens`, `n_positions`, `n_seqs` and
`n_active_seqs`. -/
def fused_kv_update_dispatch (n_active_tokens n_positions n_seqs n_active_seqs : ℕ) :
    KVUpdateOutcome :=
  if n_active_tokens = 1 ∧ n_seqs = n_active_seqs then .strategy .decodeSingle
  else if n_active_tokens = n_positions ∧ n_active_seqs < n_seqs then .strategy .prefillFull
  else if 1 < n_active_tokens ∧ n_active_tokens < n_positions then .strategy .speculative
  else .notImplemented n_active_tokens n_positions n_seqs n_active_seqs

/-- C7: every combination of `n_active_tokens`, `n_positions`, `n_seqs` and
`n_active_seqs` with 2-D cache_ids that matches none of the three supported
update strategies makes `fused_kv_update_cache` fail at graph-construction
time with the unimplemented error naming all four dimension sizes — the
dispatch is total, so there is no silent fallback path. -/
theorem fused_kv_update_dispatch_unmatched (t p s a : ℕ)
    (h1 : ¬(t = 1 ∧ s = a)) (h2 : ¬(t = p ∧ a < s)) (h3 : ¬(1 < t ∧ t < p)) :
    fused_kv_update_dispatch t p s a = KVUpdateOutcome.notImplemented t p s a := by
  unfold fused_kv_update_dispatch
  rw [if_neg h1, if_neg h2, if_neg h3]

/-- Witness for `fused_kv_update_dispatch_unmatched`: one active token but a
strict subset of active sequences matches no strategy. -/
theorem fused_kv_update_dispatch_unmatched_witness :
    fused_kv_update_dispatch 1 5 2 1 = KVUpdateOutcome.notImplemented 1 5 2 1 :=
  fused_kv_update_dispatch_unmatched 1 5 2 1 (by decide) (by decide) (by decide)

/-- Tensor ops `query_key_value` emits into the graph, in emission order. -/
inductive QKVOp
  | transpose210
  | reshape
  | dot
  | slice
  deriving DecidableEq

/-- Modelled from the spec: `constants.FUSED_QKV_TP_FACTOR` is not part of the
embedded sources; the fused projection output is split into three equal
chunks (Q, K, V), so the factor is 3. -/
def FUSED_QKV_TP_FACTOR : ℕ := 3

/-- Translation of the graph-emission order and grouped-query shape check of
`query_key_value` (attention.py lines 21-119) on the shard-over-head path,
tracking shapes rather than tensor contents.  Emission order follows the
source: `transpose210` (line 48), `reshape` of the hidden state (line 59),
then either the fused matmul and its three slices (lines 63-69) or the three
projection matmuls (lines 72-78); only then is the grouped-query configuration
assertion of lines 110-111 evaluated (`n_heads_tp >= n_repeats and n_heads_tp %
n_repeats == 0` with `n_repeats = hidden_size_tp // kv_hidden_size_tp`),
followed by the three output reshapes (lines 115-117).  The result is the
`(n_heads_tp, n_kv_heads_tp)` pair or the assertion error, paired with the
list of tensor ops already emitted into the graph when the function returned
or raised. -/
def query_key_value_trace (fuse_qkv : Bool) (hidden_size_tp kv_hidden_size_tp d_head : ℕ) :
    Except String (ℕ × ℕ) × List QKVOp :=
  let hidden_size_tp2 := if fuse_qkv then hidden_size_tp / FUSED_QKV_TP_FACTOR else hidden_size_tp
  let kv_hidden_size_tp2 := if fuse_qkv then hidden_size_tp2 else kv_hidden_size_tp
  let n_heads_tp := hidden_size_tp2 / d_head
  let ops1 := [QKVOp.transpose210, QKVOp.reshape]
    ++ (if fuse_qkv then [QKVOp.dot, QKVOp.slice, QKVOp.slice, QKVOp.slice]
        else [QKVOp.dot, QKVOp.dot, QKVOp.dot])
  let n_repeats := hidden_size_tp2 / kv_hidden_size_tp2
  if n_repeats ≤ n_heads_tp ∧ n_heads_tp % n_repeats = 0 then
    (Except.ok (n_heads_tp, n_heads_tp / n_repeats),
      ops1 ++ [QKVOp.reshape, QKVOp.reshape, QKVOp.reshape])
  else
    (Except.error "invalid configuration in n_heads_tp and n_repeats", ops1)

/-- C3 (counterexample): with per-shard query width 10, key/value width 3 and
`d_head = 1`, the repeat factor is `10 / 3 = 3` and the per-shard head count 10
is not divisible by it, so the configuration is rejected — but the transpose,
reshape and the three projection matmuls have already been emitted into the
graph when the assertion fires, so the rejection does not happen before any
tensor op is emitted. -/
theorem query_key_value_rejects_after_ops :
    (query_key_value_trace false 10 3 1).1
        = Except.error "invalid configuration in n_heads_tp and n_repeats"
      ∧ (query_key_value_trace false 10 3 1).2
        = [QKVOp.transpose210, QKVOp.reshape, QKVOp.dot, QKVOp.dot, QKVOp.dot] := by
  exact ⟨rfl, rfl⟩

/-- C3 (amended): for every grouped-query shard configuration — per-shard
query width `n * d` and key/value width `k * d` for head dimension `d` — in
which the per-shard query-head count `n` is not evenly divisible by the repeat
factor `n / k`, the unfused projection rejects the configuration with a
construction-time error, raised after the projection matmuls have been emitted
but before the output reshapes. -/
theorem query_key_value_rejects_bad_gqa (n k d : ℕ) (hd : 0 < d)
    (hdvd : ¬ (n / k ∣ n)) :
    (query_key_value_trace false (n * d) (k * d) d).1
        = Except.error "invalid configuration in n_heads_tp and n_repeats"
      ∧ (query_key_value_trace false (n * d) (k * d) d).2
        = [QKVOp.transpose210, QKVOp.reshape, QKVOp.dot, QKVOp.dot, QKVOp.dot] := by
  have h1 : n * d / d = n := Nat.mul_div_cancel _ hd
  have h2 : n * d / (k * d) = n / k := by
    rw [Nat.mul_comm n d, Nat.mul_comm k d]
    exact Nat.mul_div_mul_left _ _ hd
  have hmod : ¬ (n / k ≤ n ∧ n % (n / k) = 0) :=
    fun hc => hdvd (Nat.dvd_of_mod_eq_zero hc.2)
  unfold query_key_value_trace
  simp only [Bool.false_eq_true, if_false, h1, h2]
  rw [if_neg hmod]
  exact ⟨rfl, rfl⟩

/-- Witness for `query_key_value_rejects_bad_gqa`: 10 query heads per shard, 3
kv heads per shard, head dimension 2; the repeat factor 3 does not divide
10. -/
theorem query_key_value_rejects_bad_gqa_witness :
    (query_key_value_trace false (10 * 2) (3 * 2) 2).1
        = Except.error "invalid configuration in n_heads_tp and n_repeats"
      ∧ (query_key_value_trace false (10 * 2) (3 * 2) 2).2
        = [QKVOp.transpose210, QKVOp.reshape, QKVOp.dot, QKVOp.dot, QKVOp.dot] :=
  query_key_value_rejects_bad_gqa 10 3 2 (by decide) (by decide)

/-- Matrix `[m, n]` as a function; the 2-D reshaped activations and the weight
tensors of the projection stage. -/
abbrev Mat (m n : ℕ) := Fin m → Fin n → ℚ

/-- Modelled from the spec: `hlo.dot00_add1` is not part of the embedded
sources; the spec describes the projections as "weighted-sum-plus-bias"
operations consuming the external dot-general primitive.  Both operands
contract over dimension 0 (`hidden_r` is `[hidden_size, tokens*seqs]`, the
weight `[hidden_size, width]`) and the bias is added along output dimension 1.
The quantization-scales argument of the source is `None` on the embedded path
and is omitted. -/
def dot00_add1 {m n w : ℕ} (x : Mat m n) (weight : Mat m w) (bias : Fin w → ℚ) : Mat n w :=
  fun i j => (∑ l, x l i * weight l j) + bias j

/-- Column-concatenation of the three projection weights into one fused QKV
weight of triple width, in the order Q, K, V — the "identical underlying
weight values" premise of the fused/unfused comparison. -/
def concatCols3 {m w : ℕ} (wq wk wv : Mat m w) : Mat m (w + w + w) :=
  fun l j =>
    if h1 : (j : ℕ) < w then wq l ⟨j, h1⟩
    else if h2 : (j : ℕ) < w + w then wk l ⟨(j : ℕ) - w, by omega⟩
    else wv l ⟨(j : ℕ) - (w + w), by have := j.isLt; omega⟩

/-- Concatenation of the three projection biases, in the order Q, K, V. -/
def concatVec3 {w : ℕ} (bq bk bv : Fin w → ℚ) : Fin (w + w + w) → ℚ :=
  fun j =>
    if h1 : (j : ℕ) < w then bq ⟨j, h1⟩
    else if h2 : (j : ℕ) < w + w then bk ⟨(j : ℕ) - w, by omega⟩
    else bv ⟨(j : ℕ) - (w + w), by have := j.isLt; omega⟩

/-- Translation of the fused-QKV split (attention.py lines 66-69):
`slice_lim = active_qkv.sizes[-1] // FUSED_QKV_TP_FACTOR` and three contiguous
`slice_along` chunks `[0, lim)`, `[lim, 2*lim)`, `[2*lim, 3*lim)` along the
last dimension, in the order Q, K, V — boundaries at exactly 1/3 and 2/3 of
the fused output width. -/
def fused_qkv_split {n W : ℕ} (active_qkv : Mat n W) :
    Mat n (W / 3) × Mat n (W / 3) × Mat n (W / 3) :=
  (fun i j => active_qkv i ⟨(j : ℕ), by have := j.isLt; omega⟩,
    fun i j => active_qkv i ⟨W / 3 + (j : ℕ), by have := j.isLt; omega⟩,
    fun i j => active_qkv i ⟨2 * (W / 3) + (j : ℕ), by have := j.isLt; omega⟩)

/-- C4: with fused-QKV mode enabled, the fused matmul output is split into
three equal contiguous chunks (boundaries at 1/3 and 2/3 of the fused width)
in the order Q, K, V, and given the column-concatenated weights and biases the
fused path reproduces the three unfused independent projections exactly. -/
theorem fused_qkv_split_spec {m n w : ℕ} (hidden_r : Mat m n)
    (q_weight k_weight v_weight : Mat m w) (q_bias k_bias v_bias : Fin w → ℚ)
    (i : Fin n) (j : Fin w) :
    ((fused_qkv_split (dot00_add1 hidden_r (concatCols3 q_weight k_weight v_weight)
          (concatVec3 q_bias k_bias v_bias))).1 i
        ⟨(j : ℕ), by have := j.isLt; omega⟩
      = dot00_add1 hidden_r q_weight q_bias i j)
    ∧ ((fused_qkv_split (dot00_add1 hidden_r (concatCols3 q_weight k_weight v_weight)
          (concatVec3 q_bias k_bias v_bias))).2.1 i
        ⟨(j : ℕ), by have := j.isLt; omega⟩
      = dot00_add1 hidden_r k_weight k_bias i j)
    ∧ ((fused_qkv_split (dot00_add1 hidden_r (concatCols3 q_weight k_weight v_weight)
          (concatVec3 q_bias k_bias v_bias))).2.2 i
        ⟨(j : ℕ), by have := j.isLt; omega⟩
      = dot00_add1 hidden_r v_weight v_bias i j) := by
  have h3 : (w + w + w) / 3 = w := by omega
  refine ⟨?_, ?_, ?_⟩
  · simp only [fused_qkv_split, dot00_add1]
    congr 1
    · exact Finset.sum_congr rfl fun l _ => by simp [concatCols3, j.isLt]
    · simp [concatVec3, j.isLt]
  · have hc1 : ¬ (w + (j : ℕ) < w) := by omega
    have hc2 : w + (j : ℕ) < w + w := by omega
    simp only [fused_qkv_split, dot00_add1, h3]
    congr 1
    · exact Finset.sum_congr rfl fun l _ => by
        simp [concatCols3, hc1, hc2, Nat.add_sub_cancel_left]
    · simp [concatVec3, hc1, hc2, Nat.add_sub_cancel_left]
  · have hc1 : ¬ (2 * w + (j : ℕ) < w) := by omega
    have hc2 : ¬ (2 * w + (j : ℕ) < w + w) := by omega
    have hsub : 2 * w + (j : ℕ) - (w + w) = (j : ℕ) := by omega
    simp only [fused_qkv_split, dot00_add1, h3]
    congr 1
    · exact Finset.sum_congr rfl fun l _ => by
        simp [concatCols3, hc1, hc2, hsub]
    · simp [concatVec3, hc1, hc2, hsub]

/-- Translation of `scale` (attention.py lines 287-296): the query is divided
elementwise by the broadcast scalar constant `d_head ** 0.5`.  The floating
constant is modelled by a rational parameter `sqrt_d_head`, pinned to square
to `d_head` by hypothesis in the theorem below. -/
def scale {t s h d : ℕ} (query : Fin t → Fin s → Fin h → Fin d → ℚ) (sqrt_d_head : ℚ) :
    Fin t → Fin s → Fin h → Fin d → ℚ :=
  fun k i j dd => query k i j dd / sqrt_d_head

/-- Translation of `score` (attention.py lines 299-337) on the
`neuron_config = None`, `n_kv_heads = 0` path (SBH layout): the raw query-key
dot product, batched over the sequence and head dimensions
(`lhs_batch_dimensions = rhs_batch_dimensions = [1, 2]`) and contracting over
`d_head` (dimension 3 of both operands), with no scaling applied. -/
def score {t s h d p : ℕ} (query : Fin t → Fin s → Fin h → Fin d → ℚ)
    (keys : Fin p → Fin s → Fin h → Fin d → ℚ) : T4 s h t p :=
  fun i j k l => ∑ dd, query k i j dd * keys l i j dd

/-- C9: `scale` returns the query with every element divided by `sqrt(d_head)`
(any positive `c` with `c * c = d_head`), while `score` computes the raw
query-key dot product without any scaling; scaling is a separate operation,
and applying it to the query before `score` divides every score by
`sqrt(d_head)`. -/
theorem scale_score_spec {t s h d p : ℕ} (d_head : ℕ)
    (query : Fin t → Fin s → Fin h → Fin d → ℚ)
    (keys : Fin p → Fin s → Fin h → Fin d → ℚ)
    (c : ℚ) (hc : c * c = (d_head : ℚ)) (hpos : 0 < c) :
    (∀ k i j dd, scale query c k i j dd = query k i j dd / c)
    ∧ (∀ i j k l, score query keys i j k l = ∑ dd, query k i j dd * keys l i j dd)
    ∧ (∀ i j k l, score (scale query c) keys i j k l = score query keys i j k l / c) := by
  refine ⟨fun _ _ _ _ => rfl, fun _ _ _ _ => rfl, fun i j k l => ?_⟩
  unfold score scale
  rw [Finset.sum_div]
  exact Finset.sum_congr rfl fun dd _ => div_mul_eq_mul_div _ _ _

/-- Witness for `scale_score_spec` with `d_head = 4`, `sqrt(d_head) = 2`. -/
theorem scale_score_spec_witness :
    score (scale (fun _ _ _ _ => 6 : Fin 1 → Fin 1 → Fin 1 → Fin 1 → ℚ) 2)
        (fun _ _ _ _ => 1 : Fin 1 → Fin 1 → Fin 1 → Fin 1 → ℚ) 0 0 0 0
      = score (fun _ _ _ _ => 6 : Fin 1 → Fin 1 → Fin 1 → Fin 1 → ℚ)
          (fun _ _ _ _ => 1 : Fin 1 → Fin 1 → Fin 1 → Fin 1 → ℚ) 0 0 0 0 / 2 :=
  (scale_score_spec 4 _ _ 2 (by norm_num) (by norm_num)).2.2 0 0 0 0

/-- Translation of `update_cache` (attention.py lines 271-284): a single
`Scatter` on the unreshaped `[n_positions, n_seqs, n_kv_heads, d_head]` cache
with `update_window_dims=[1,2,3]`, `inserted_window_dims=[0]` and
`scatter_dims_to_operand_dims=[0]`: the tk-th scatter index selects position
row `cache_ids[tk]` of the cache and the tk-th slab of `values` overwrites it
across all sequences, heads and head entries.  The scatter combiner
`hlo.gen_assign_func` (outside the embedded sources; the spec calls it the
overwrite combiner, "new value replaces old, not summed", last write wins on
duplicates) is modelled by the `if`-overwrite inside the fold. -/
def update_cache {p s h d n : ℕ} (cache : VT p s h d) (cache_ids : Fin n → Fin p)
    (values : VT n s h d) : VT p s h d :=
  fun pos i j dd =>
    (List.finRange n).foldl
      (fun acc tk => if cache_ids tk = pos then values tk i j dd else acc)
      (cache pos i j dd)

/-- Translation of the 1-D `cache_ids` path of `fused_kv_update_cache`
(attention.py lines 169-173): when `cache_ids` is 1-D the function immediately
delegates to `update_cache` once for the keys and once for the values, with
the same index tensor, and returns the pair. -/
def fused_kv_update_cache_1d {p s h d n : ℕ} (cached_keys cached_vals : VT p s h d)
    (cache_ids : Fin n → Fin p) (keys vals : VT n s h d) : VT p s h d × VT p s h d :=
  (update_cache cached_keys cache_ids keys, update_cache cached_vals cache_ids vals)

/-- Formalisation of the claim's description of the 1-D update (not of the
source): with one index per sequence, reshape the cache to flat
`[positions * sequences, hidden]` rows, remap each logical
`(position, sequence)` pair `(cache_ids[s], s)` to the flat row
`cache_ids[s] * n_seqs + s`, and overwrite exactly those rows; un-flattened,
cell `(cache_ids[s], s, ·, ·)` receives sequence `s`'s new slab and every
other cell is untouched. -/
def claim_update_1d {p s h d : ℕ} (cache : VT p s h d) (cache_ids : Fin s → Fin p)
    (values : Fin s → Fin h → Fin d → ℚ) : VT p s h d :=
  fun pos i j dd => if cache_ids i = pos then values i j dd else cache pos i j dd

theorem foldl_assign_of_not_mem {p n : ℕ} (g : Fin n → ℚ) (ids : Fin n → Fin p)
    (pos : Fin p) :
    ∀ (l : List (Fin n)) (init : ℚ), (∀ tk ∈ l, ids tk ≠ pos) →
      l.foldl (fun acc tk => if ids tk = pos then g tk else acc) init = init := by
  intro l
  induction l with
  | nil => intro init _; rfl
  | cons x xs ih =>
    intro init hl
    simp only [List.foldl_cons]
    rw [if_neg (hl x (List.mem_cons_self x xs))]
    exact ih init fun tk htk => hl tk (List.mem_cons_of_mem _ htk)

theorem foldl_assign_last {p n : ℕ} (g : Fin n → ℚ) (ids : Fin n → Fin p) (tk : Fin n) :
    ∀ (l : List (Fin n)) (init : ℚ), tk ∈ l →
      (∀ tk2 ∈ l, ids tk2 = ids tk → tk2 = tk) →
      l.foldl (fun acc tk2 => if ids tk2 = ids tk then g tk2 else acc) init = g tk := by
  intro l
  induction l with
  | nil => intro init hmem _; cases hmem
  | cons x xs ih =>
    intro init hmem huniq
    by_cases hx : tk ∈ xs
    · simp only [List.foldl_cons]
      exact ih _ hx fun tk2 h2 => huniq tk2 (List.mem_cons_of_mem _ h2)
    · have hxt : x = tk := by
        rcases List.mem_cons.1 hmem with hcase | hcase
        · exact hcase.symm
        · exact absurd hcase hx
      subst hxt
      simp only [List.foldl_cons, if_pos rfl]
      exact foldl_assign_of_not_mem g ids (ids x) xs (g x)
        fun tk2 h2 heq => hx ((huniq tk2 (List.mem_cons_of_mem _ h2) heq) ▸ h2)

theorem update_cache_hit {p s h d n : ℕ} (cache : VT p s h d) (cache_ids : Fin n → Fin p)
    (values : VT n s h d) (hinj : Function.Injective cache_ids) (tk : Fin n)
    (i : Fin s) (j : Fin h) (dd : Fin d) :
    update_cache cache cache_ids values (cache_ids tk) i j dd = values tk i j dd := by
  unfold update_cache
  exact foldl_assign_last (fun tk2 => values tk2 i j dd) cache_ids tk
    (List.finRange n) _ (List.mem_finRange tk) fun tk2 _ heq => hinj heq

theorem update_cache_miss {p s h d n : ℕ} (cache : VT p s h d) (cache_ids : Fin n → Fin p)
    (values : VT n s h d) (pos : Fin p) (hmiss : ∀ tk, cache_ids tk ≠ pos)
    (i : Fin s) (j : Fin h) (dd : Fin d) :
    update_cache cache cache_ids values pos i j dd = cache pos i j dd := by
  unfold update_cache
  exact foldl_assign_of_not_mem (fun tk2 => values tk2 i j dd) cache_ids pos
    (List.finRange n) _ fun tk _ => hmiss tk

/-- C6 (counterexample): the 1-D path of the fused cache update does not
implement the claimed flat-reshape-and-(position, sequence)-remap semantics.
It scatters each new slab across all sequences of one position row: with
`cache_ids = [0, 1]`, new values all 1 and a zero cache, the code overwrites
cell (position 0, sequence 1) with 1, while the claimed per-(position,
sequence) remap — sequence 1 writes only at position `cache_ids[1] = 1` —
leaves that cell at 0. -/
theorem fused_kv_update_cache_1d_not_flat_remap :
    (fused_kv_update_cache_1d (fun _ _ _ _ => 0 : VT 2 2 1 1) (fun _ _ _ _ => 0 : VT 2 2 1 1)
        (fun x => x : Fin 2 → Fin 2) (fun _ _ _ _ => 1) (fun _ _ _ _ => 1)).1 0 1 0 0 = 1
    ∧ claim_update_1d (fun _ _ _ _ => 0 : VT 2 2 1 1) (fun x => x : Fin 2 → Fin 2)
        (fun _ _ _ => 1) 0 1 0 0 = 0
    ∧ (fused_kv_update_cache_1d (fun _ _ _ _ => 0 : VT 2 2 1 1) (fun _ _ _ _ => 0 : VT 2 2 1 1)
        (fun x => x : Fin 2 → Fin 2) (fun _ _ _ _ => 1) (fun _ _ _ _ => 1)).1 0 1 0 0
      ≠ claim_update_1d (fun _ _ _ _ => 0 : VT 2 2 1 1) (fun x => x : Fin 2 → Fin 2)
          (fun _ _ _ => 1) 0 1 0 0 := by
  refine ⟨?_, ?_, ?_⟩ <;> decide

/-- C6 (amended): for every 1-D `cache_ids` tensor, the fused K/V cache update
performs one scatter for keys and one for values, both using the same index
tensor, directly on the `[positions, sequences, heads, head_dim]` cache (no
flat reshape and no index remapping, which belong to the 2-D paths) with an
overwrite combiner: for injective indices, position row `cache_ids[tk]` of the
key (resp. value) cache receives the tk-th new key (resp. value) slab across
all sequences — the new value replacing the old, not summed — and every
position outside `cache_ids` is untouched. -/
theorem fused_kv_update_cache_1d_spec {p s h d n : ℕ}
    (cached_keys cached_vals : VT p s h d) (cache_ids : Fin n → Fin p)
    (keys vals : VT n s h d) (hinj : Function.Injective cache_ids) :
    (∀ tk i j dd,
      (fused_kv_update_cache_1d cached_keys cached_vals cache_ids keys vals).1
          (cache_ids tk) i j dd = keys tk i j dd)
    ∧ (∀ tk i j dd,
      (fused_kv_update_cache_1d cached_keys cached_vals cache_ids keys vals).2
          (cache_ids tk) i j dd = vals tk i j dd)
    ∧ (∀ pos, (∀ tk, cache_ids tk ≠ pos) → ∀ i j dd,
      (fused_kv_update_cache_1d cached_keys cached_vals cache_ids keys vals).1
          pos i j dd = cached_keys pos i j dd
        ∧ (fused_kv_update_cache_1d cached_keys cached_vals cache_ids keys vals).2
            pos i j dd = cached_vals pos i j dd) :=
  ⟨fun tk i j dd => update_cache_hit cached_keys cache_ids keys hinj tk i j dd,
    fun tk i j dd => update_cache_hit cached_vals cache_ids vals hinj tk i j dd,
    fun pos hmiss i j dd =>
      ⟨update_cache_miss cached_keys cache_ids keys pos hmiss i j dd,
        update_cache_miss cached_vals cache_ids vals pos hmiss i j dd⟩⟩

/-- Witness for `fused_kv_update_cache_1d_spec` with identity indices on a two
position, two sequence cache. -/
theorem fused_kv_update_cache_1d_spec_witness :
    (fused_kv_update_cache_1d (fun _ _ _ _ => 0 : VT 2 2 1 1) (fun _ _ _ _ => 0 : VT 2 2 1 1)
        (fun x => x : Fin 2 → Fin 2) (fun _ _ _ _ => 1) (fun _ _ _ _ => 1)).1 0 0 0 0 = 1 :=
  (fused_kv_update_cache_1d_spec (fun _ _ _ _ => 0) (fun _ _ _ _ => 0)
    (fun x => x : Fin 2 → Fin 2) (fun _ _ _ _ => 1) (fun _ _ _ _ => 1)
    (fun _ _ hab => hab)).1 0 0 0 0

end TNX
